import Mathlib

/-!
Shallow embedding of the `manual-veh` crate (src/raw.rs, src/lib.rs,
src/raw_offset.rs): manual resolution of the vectored-continue-handler
registration pair from ntdll, plus the scoped `Veh` handle.

Machine integers are modelled as `Nat`/`Int` with explicit reduction
modulo `2^32` / `2^64` where the Rust code performs fixed-width
arithmetic.  Pointers are `Nat` addresses taken modulo the address
width.  Fallible code returns `Option`; a Rust panic/`unwrap`
failure is modelled as `none`.
-/

/-- Two to the 32, the wrap modulus of `i32`/`u32` arithmetic. -/
def U32 : Nat := 2 ^ 32

/-- Two to the 64, the wrap modulus of 64-bit pointer arithmetic. -/
def U64 : Nat := 2 ^ 64

/-- Reduce an integer into the two's-complement range of `i32`,
`[-2^31, 2^31)`: the value a wrapping 32-bit signed computation stores. -/
def wrap32 (x : Int) : Int := (x + 2 ^ 31) % (2 ^ 32) - 2 ^ 31

/-- Rust `i32::from_le_bytes([b1, b2, b3, b4])`: little-endian unsigned
assembly, then two's-complement reinterpretation as a signed value. -/
def i32_ofLeBytes (b1 b2 b3 b4 : Nat) : Int :=
  let u : Nat := b1 + b2 * 2 ^ 8 + b3 * 2 ^ 16 + b4 * 2 ^ 24
  if u < 2 ^ 31 then (u : Int) else (u : Int) - 2 ^ 32

/-- Wrapping `i32` addition (release-profile overflow semantics of `+`). -/
def i32_add (a b : Int) : Int := wrap32 (a + b)

/-- Rust `index as i32` on a `usize` index: truncate to 32 bits and
reinterpret as signed. -/
def usize_as_i32 (n : Nat) : Int := wrap32 (n : Int)

/-- Rust `x as usize` on an `i32`, on a 64-bit target: sign-extend to 64
bits and reinterpret as unsigned, i.e. the representative of `x` modulo
`2^64`. -/
def i32_as_usize64 (x : Int) : Nat := (x % (U64 : Int)).toNat

/-- Rust `x as usize` on an `i32`, on a 32-bit target: reinterpret the 32
bits as unsigned, i.e. the representative of `x` modulo `2^32`. -/
def i32_as_usize32 (x : Int) : Nat := (x % (U32 : Int)).toNat

/-!
## src/raw_offset.rs

`impl<T> RawOffset for *const T` (and `*mut T`): both methods first cast
`self` to a byte pointer (`self as *const u8`) and only then offset, so
the element size of `T` is never used.  `bits` is the build's
`target_pointer_width`; `sizeT` is `size_of::<T>()`.
-/

/-- Offsetting a `*const u8` by `count` elements: element size is one
byte, and pointer arithmetic wraps at the address width. -/
def u8_ptr_add (bits : Nat) (p count : Nat) : Nat := (p + 1 * count) % 2 ^ bits

/-- Offsetting a `*const u8` by a signed element count. -/
def u8_ptr_offset (bits : Nat) (p : Nat) (count : Int) : Nat :=
  (((p : Int) + 1 * count) % (2 ^ bits : Nat)).toNat

/-- What `<*const T>::add` itself would do: scale by the element size.
Kept for contrast with `RawOffset.raw_add`, which deliberately does not. -/
def typed_ptr_add (bits : Nat) (sizeT : Nat) (p count : Nat) : Nat :=
  (p + sizeT * count) % 2 ^ bits

/-- Model of `RawOffset::raw_add` for `*const T`:
`(self as *const u8).add(count) as Self`. -/
def RawOffset.raw_add (bits : Nat) (sizeT : Nat) (p count : Nat) : Nat :=
  u8_ptr_add bits p count

/-- Model of `RawOffset::raw_offset` for `*const T`:
`(self as *const u8).offset(count) as Self`. -/
def RawOffset.raw_offset (bits : Nat) (sizeT : Nat) (p : Nat) (count : Int) : Nat :=
  u8_ptr_offset bits p count

/-!
## src/raw.rs: `get_wrapped_function`

The Rust body is an iterator chain over `slice::windows(N)`:
`enumerate`, `filter_map` on a byte-pattern match producing
`i32::from_le_bytes([b1,b2,b3,b4]) + index as i32 + 5`, then `map`
through `wrapper.raw_add(ravh as _)` and `next()`.  The scanner below
consumes the windows in the same address-ascending order: a window
exists exactly while at least `N` bytes remain, and the first
structurally matching window wins.
-/

/-- The `filter_map` arm's arithmetic: `i32::from_le_bytes([b1,b2,b3,b4])
+ index as i32 + 5`, every `+` a wrapping `i32` addition. -/
def relTarget (b1 b2 b3 b4 : Nat) (index : Nat) : Int :=
  i32_add (i32_add (i32_ofLeBytes b1 b2 b3 b4) (usize_as_i32 index)) 5

/-- 64-bit scan: first 5-byte window `[0xE9, b1, b2, b3, b4]`, i.e. first
window whose leading byte is the `JMP rel32` opcode; `idx` is the
enumeration index of the current window. -/
def scanWideAux : List Nat → Nat → Option Int
  | b0 :: b1 :: b2 :: b3 :: b4 :: rest, idx =>
    if b0 = 0xE9 then some (relTarget b1 b2 b3 b4 idx)
    else scanWideAux (b1 :: b2 :: b3 :: b4 :: rest) (idx + 1)
  | _, _ => none

/-- 32-bit scan: first 9-byte window `[0xE8, b1, b2, b3, b4, 0x5D, 0xC2,
_, 0x00]` (`CALL rel32 ; POP EBP ; RET imm16 ; pad`). -/
def scanNarrowAux : List Nat → Nat → Option Int
  | b0 :: b1 :: b2 :: b3 :: b4 :: b5 :: b6 :: b7 :: b8 :: rest, idx =>
    if b0 = 0xE8 ∧ b5 = 0x5D ∧ b6 = 0xC2 ∧ b8 = 0x00 then
      some (relTarget b1 b2 b3 b4 idx)
    else scanNarrowAux (b1 :: b2 :: b3 :: b4 :: b5 :: b6 :: b7 :: b8 :: rest) (idx + 1)
  | _, _ => none

/-- The `target_pointer_width = "64"` body of `get_wrapped_function`:
`bytes` is the slice `from_raw_parts(wrapper, size)`.  The matched
relative offset is cast `as usize` (sign-extending) and applied with
`wrapper.raw_add`, `wrapper` being a `*const u8`. -/
def get_wrapped_function_wide (wrapper : Nat) (bytes : List Nat) : Option Nat :=
  (scanWideAux bytes 0).map (fun ravh => RawOffset.raw_add 64 1 wrapper (i32_as_usize64 ravh))

/-- The `target_pointer_width = "32"` body of `get_wrapped_function`. -/
def get_wrapped_function_narrow (wrapper : Nat) (bytes : List Nat) : Option Nat :=
  (scanNarrowAux bytes 0).map (fun ravh => RawOffset.raw_add 32 1 wrapper (i32_as_usize32 ravh))

/-- A 5-byte window at offset `i` matches the wide (64-bit) pattern:
the window lies within the buffer and starts with opcode `0xE9`. -/
def wideMatchAt (bs : List Nat) (i : Nat) : Prop :=
  i + 5 ≤ bs.length ∧ bs.getD i 0 = 0xE9

/-- A 9-byte window at offset `i` matches the narrow (32-bit) pattern
`[0xE8, _, _, _, _, 0x5D, 0xC2, _, 0x00]`. -/
def narrowMatchAt (bs : List Nat) (i : Nat) : Prop :=
  i + 9 ≤ bs.length ∧ bs.getD i 0 = 0xE8 ∧ bs.getD (i + 5) 0 = 0x5D ∧
    bs.getD (i + 6) 0 = 0xC2 ∧ bs.getD (i + 8) 0 = 0

/-- The 4-byte little-endian signed displacement following the opcode at
offset `i`. -/
def dispAt (bs : List Nat) (i : Nat) : Int :=
  i32_ofLeBytes (bs.getD (i + 1) 0) (bs.getD (i + 2) 0) (bs.getD (i + 3) 0) (bs.getD (i + 4) 0)

instance (bs : List Nat) (i : Nat) : Decidable (wideMatchAt bs i) := by
  unfold wideMatchAt; infer_instance

instance (bs : List Nat) (i : Nat) : Decidable (narrowMatchAt bs i) := by
  unfold narrowMatchAt; infer_instance

/-!
## src/raw.rs: Module Locator (`get_module_handle`)

The Rust function walks the PEB loader's `InInitializationOrderModuleList`
directly: starting from the list head it repeatedly dereferences the
forward link, stops with `None` when the link leads back to the head,
and otherwise reads the module base and the `UNICODE_STRING` name at
fixed offsets from the node, decodes the UTF-16 name lossily, uppercases
it and compares it against the uppercased target.

The embedding abstracts raw memory as a map from node address to the
fields the code reads at its fixed offsets (`flink` is the value at
offset 0, `base` the value at offset `2 * ptr_size`, and the
`UNICODE_STRING` contents at `5 * ptr_size + size_of(UNICODE_STRING)`).
Strings are modelled as `List Char`; uppercasing is `Char.toUpper`.
-/

/-- One loaded-module record, as read by the traversal (64-bit offsets).
`nameBuf` is the UTF-16 code-unit array behind `UNICODE_STRING.buffer`
and `nameBytesLen` its `bytes_length` field. -/
structure LdrNode where
  flink : Nat
  base : Nat
  nameBuf : List Nat
  nameBytesLen : Nat

/-- Offset of the `UNICODE_STRING` name from a node, 64-bit build:
`ARCH_PTR_SIZE * 5 + size_of(UNICODE_STRING)` = `8 * 5 + 16`. -/
def name_ptr_offset : Nat := 8 * 5 + 16

/-- Lossy UTF-16 decoding as performed by `OsString::from_wide` followed
by `to_string_lossy`: surrogate pairs combine, every unpaired surrogate
becomes U+FFFD. -/
def utf16DecodeLossy : List Nat → List Char
  | [] => []
  | [u] =>
    if (0xD800 ≤ u ∧ u ≤ 0xDBFF) ∨ (0xDC00 ≤ u ∧ u ≤ 0xDFFF) then [Char.ofNat 0xFFFD]
    else [Char.ofNat u]
  | u :: v :: rest =>
    if 0xD800 ≤ u ∧ u ≤ 0xDBFF then
      if 0xDC00 ≤ v ∧ v ≤ 0xDFFF then
        Char.ofNat (0x10000 + (u - 0xD800) * 0x400 + (v - 0xDC00)) :: utf16DecodeLossy rest
      else
        Char.ofNat 0xFFFD :: utf16DecodeLossy (v :: rest)
    else if 0xDC00 ≤ u ∧ u ≤ 0xDFFF then
      Char.ofNat 0xFFFD :: utf16DecodeLossy (v :: rest)
    else
      Char.ofNat u :: utf16DecodeLossy (v :: rest)

/-- The name comparison key the loop computes for a node: read
`bytes_length / 2` UTF-16 units from the buffer, decode lossily,
uppercase. -/
def decodedUpperName (node : LdrNode) : List Char :=
  (utf16DecodeLossy (node.nameBuf.take (node.nameBytesLen / 2))).map Char.toUpper

/-- The traversal loop of `get_module_handle`.  `cur` is the node whose
forward link is followed next (initially the list head); `fuel` bounds
the number of iterations (the Rust loop is unbounded; on a well-formed
circular list it terminates, which the fuel makes explicit).  A node
whose name pointer would be null is skipped (`as_ref` returning `None`). -/
def gmhLoop (mem : Nat → LdrNode) (list_base : Nat) (target_name : List Char) :
    Nat → Nat → Option Nat
  | 0, _ => none
  | fuel + 1, cur =>
    let current := (mem cur).flink
    if current = list_base then none
    else if (current + name_ptr_offset) % U64 = 0 then
      gmhLoop mem list_base target_name fuel current
    else if decodedUpperName (mem current) = target_name then
      some (mem current).base
    else
      gmhLoop mem list_base target_name fuel current

/-- Model of `get_module_handle`: uppercase the target once, then walk
the circular list from `list_base`. -/
def get_module_handle (mem : Nat → LdrNode) (list_base : Nat) (name : List Char)
    (fuel : Nat) : Option Nat :=
  gmhLoop mem list_base (name.map Char.toUpper) fuel list_base

/-- Well-formed circular module list: following forward links from
`cur` visits exactly the nodes in `ns` (none of them the head, all with
a non-null name pointer) and then returns to `list_base`. -/
def isChain (mem : Nat → LdrNode) (list_base : Nat) : Nat → List Nat → Prop
  | cur, [] => (mem cur).flink = list_base
  | cur, n :: rest =>
    (mem cur).flink = n ∧ n ≠ list_base ∧ (n + name_ptr_offset) % U64 ≠ 0 ∧
      isChain mem list_base n rest

instance (mem : Nat → LdrNode) (list_base cur : Nat) (ns : List Nat) :
    Decidable (isChain mem list_base cur ns) := by
  induction ns generalizing cur with
  | nil => unfold isChain; infer_instance
  | cons n rest ih => unfold isChain; exact @instDecidableAnd _ _ _ (@instDecidableAnd _ _ _ (@instDecidableAnd _ _ _ (ih n)))

/-!
## src/raw.rs: `find_handlers` and the cached registration pair

`find_handlers` resolves the working environment once: module lookup,
two export lookups (each `unwrap`ped — a miss is a panic), two
trampoline scans with bound `0x50`, and only a full success produces the
`VectoredHandlers` pair.  A `none` result models the panic of the inner
`unwrap`s or of the final `.unwrap()`.

`ResolveEnv` packages what the process supplies: the outcome of the
ntdll module lookup, the export directory (`pelite`'s
`get_proc_address`), the instruction bytes mapped at any address, and
the behaviour of calling a resolved function pointer (used by the
registration forwarding layer below).
-/

/-- Exported stub resolved for registration. -/
def RAVCH : String := "RtlAddVectoredContinueHandler"

/-- Exported stub resolved for unregistration. -/
def RRVCH : String := "RtlRemoveVectoredContinueHandler"

/-- The resolved internal function pair (two function-pointer addresses). -/
structure VectoredHandlers where
  add : Nat
  remove : Nat
deriving DecidableEq

/-- The process environment the resolution and forwarding code reads. -/
structure ResolveEnv where
  moduleBase : Option Nat
  procAddr : Nat → String → Option Nat
  bytesAt : Nat → List Nat
  call : Nat → List Nat → Nat

/-- Model of `find_handlers` (64-bit build): `none` is a panic of the
initializing call path. -/
def find_handlers (env : ResolveEnv) : Option VectoredHandlers :=
  match env.moduleBase with
  | none => none
  | some base =>
    match env.procAddr base RAVCH with
    | none => none
    | some ravch_addr =>
      match env.procAddr base RRVCH with
      | none => none
      | some rrvch_addr =>
        match get_wrapped_function_wide ravch_addr ((env.bytesAt ravch_addr).take 0x50),
              get_wrapped_function_wide rrvch_addr ((env.bytesAt rrvch_addr).take 0x50) with
        | some ra, some rr => some ⟨ra, rr⟩
        | _, _ => none

/-!
## Sequential model of `VECTORED_HANDLER` and the public operations

`RegState` is the process-lifetime state the code mutates: the
`OnceBox` cell, a count of how many times `find_handlers` has actually
executed, and a log of the invocations made through resolved function
pointers.  `get_or_init` is the sequential (uncontended) semantics of
`OnceBox::get_or_init`; the concurrent race semantics is modelled
separately below for the concurrency claim.
-/

/-- One invocation of a resolved function pointer: the pointer, the
argument list, and the value it returned. -/
structure CallEv where
  fn : Nat
  args : List Nat
  ret : Nat
deriving DecidableEq

/-- Process-lifetime registry state. -/
structure RegState where
  cell : Option VectoredHandlers
  initCount : Nat
  log : List CallEv
deriving DecidableEq

/-- Sequential `VECTORED_HANDLER.get_or_init(find_handlers)`: a populated
cell is returned as is; an empty cell runs `find_handlers` and stores
the result; a resolution panic (`none`) aborts with nothing stored. -/
def get_or_init (env : ResolveEnv) (s : RegState) : Option (VectoredHandlers × RegState) :=
  match s.cell with
  | some h => some (h, s)
  | none =>
    match find_handlers env with
    | some h => some (h, { s with cell := some h, initCount := s.initCount + 1 })
    | none => none

/-- Calling a resolved function pointer: returns what the OS function
returns and records the invocation. -/
def invoke (env : ResolveEnv) (s : RegState) (fn : Nat) (args : List Nat) : Nat × RegState :=
  (env.call fn args, { s with log := s.log ++ [⟨fn, args, env.call fn args⟩] })

/-- Model of `raw::add_vectored_exception_handler`: init-or-fetch the
pair, then `(pair.add)(first_handler as LONG, handler, 0)`. -/
def add_vectored_exception_handler (env : ResolveEnv) (s : RegState)
    (first_handler : Bool) (vectored_handler : Nat) : Option (Nat × RegState) :=
  (get_or_init env s).map fun hs =>
    invoke env hs.2 hs.1.add [if first_handler then 1 else 0, vectored_handler, 0]

/-- Model of `raw::remove_vectored_exception_handler`:
`(pair.remove)(handle, 0)`. -/
def remove_vectored_exception_handler (env : ResolveEnv) (s : RegState)
    (vectored_handler : Nat) : Option (Nat × RegState) :=
  (get_or_init env s).map fun hs =>
    invoke env hs.2 hs.1.remove [vectored_handler, 0]

/-!
## src/lib.rs: `Order`, `raw_add`, `Veh`
-/

/-- Registration position (`repr(u8)`: `First = 1`, `Last = 0`). -/
inductive Order
  | First
  | Last
deriving DecidableEq

/-- Model of `lib.rs`'s private `raw_add`: translate `Order` to the
boolean front-of-chain selector. -/
def raw_add (env : ResolveEnv) (s : RegState) (order : Order) (handler : Nat) :
    Option (Nat × RegState) :=
  match order with
  | Order.First => add_vectored_exception_handler env s true handler
  | Order.Last => add_vectored_exception_handler env s false handler

/-- The scoped handle: owns the opaque `*const c_void` returned by
registration. -/
structure Veh where
  handle : Nat
deriving DecidableEq

/-- Model of `Veh::add_raw`: register and store the returned token. -/
def Veh.add_raw (env : ResolveEnv) (s : RegState) (order : Order) (handler : Nat) :
    Option (Veh × RegState) :=
  (raw_add env s order handler).map fun rs => (⟨rs.1⟩, rs.2)

/-- Model of `Drop for Veh`: unregister with the stored token, the
return value of the unregistration call discarded. -/
def Veh.drop (env : ResolveEnv) (s : RegState) (v : Veh) : Option RegState :=
  (remove_vectored_exception_handler env s v.handle).map fun rs => rs.2

/-!
## Concurrent model of `once_cell::race::OnceBox::get_or_init`

`VECTORED_HANDLER` is a `once_cell::race::OnceBox`.  Its `get_or_init`
is lock-free, first-one-wins: a thread that reads an empty cell runs the
initializer itself, boxes the result, and tries to install the box with
a compare-and-swap; if another thread installed a box first, the loser
drops its own box and adopts the winner's.  The step relation below is
that algorithm, one thread-step at a time.  `initCount` counts actual
executions of the initializer (`find_handlers`), and each execution
allocates a fresh box id from `nextBox`.
-/

/-- Program counter of one thread inside `get_or_init`. -/
inductive TPC
  | start
  | finished (box : Nat)
  | ready (v : Nat)
deriving DecidableEq

/-- Global state of the racing threads and the once-cell. -/
structure RaceState where
  cell : Option Nat
  threads : List TPC
  nextBox : Nat
  initCount : Nat
deriving DecidableEq

/-- One interleaving step of `OnceBox::get_or_init`. -/
inductive RaceStep : RaceState → RaceState → Prop
  | read_some (s : RaceState) (i : Nat) (v : Nat) :
      s.threads[i]? = some TPC.start → s.cell = some v →
      RaceStep s { s with threads := s.threads.set i (TPC.ready v) }
  | run_init (s : RaceState) (i : Nat) :
      s.threads[i]? = some TPC.start → s.cell = none →
      RaceStep s { s with threads := s.threads.set i (TPC.finished s.nextBox),
                          nextBox := s.nextBox + 1, initCount := s.initCount + 1 }
  | cas_win (s : RaceState) (i : Nat) (b : Nat) :
      s.threads[i]? = some (TPC.finished b) → s.cell = none →
      RaceStep s { s with cell := some b, threads := s.threads.set i (TPC.ready b) }
  | cas_lose (s : RaceState) (i : Nat) (b v : Nat) :
      s.threads[i]? = some (TPC.finished b) → s.cell = some v →
      RaceStep s { s with threads := s.threads.set i (TPC.ready v) }

/-- Reachability under interleaved steps. -/
def RaceReachable : RaceState → RaceState → Prop := Relation.ReflTransGen RaceStep

/-- Initial state: `n` threads about to call `get_or_init`, empty cell. -/
def raceInit (n : Nat) : RaceState :=
  { cell := none, threads := List.replicate n TPC.start, nextBox := 0, initCount := 0 }

/-- Every thread that has returned from `get_or_init` observed exactly
the value stored in the cell. -/
def raceObservation (s : RaceState) : Prop :=
  ∀ (i : Nat) (v : Nat), s.threads[i]? = some (TPC.ready v) → s.cell = some v

/-- A small concrete module list used by witnesses: head node `10`,
then node `20` (name `xx`), then node `30` (name `ntdll.dll`), link
back to the head. -/
def demoMem : Nat → LdrNode := fun a =>
  if a = 10 then { flink := 20, base := 0, nameBuf := [], nameBytesLen := 0 }
  else if a = 20 then { flink := 30, base := 111, nameBuf := [120, 120], nameBytesLen := 4 }
  else if a = 30 then
    { flink := 10, base := 222,
      nameBuf := [110, 116, 100, 108, 108, 46, 100, 108, 108], nameBytesLen := 18 }
  else { flink := 0, base := 0, nameBuf := [], nameBytesLen := 0 }

/-- A concrete environment in which resolution fails immediately (no
ntdll module found) and every OS call returns the null pointer. -/
def demoEnvFail : ResolveEnv :=
  { moduleBase := none, procAddr := fun _ _ => none,
    bytesAt := fun _ => [], call := fun _ _ => 0 }

/-- A concrete environment in which resolution succeeds: the module is
at base 0, the two exports are at 100 and 200, and each stub starts with
a wide `JMP rel32` pattern (displacements 1 and 2, so the unwrapped
targets are 106 and 207).  Calls return the callee address plus the
argument count. -/
def demoEnvOk : ResolveEnv :=
  { moduleBase := some 0,
    procAddr := fun _ name =>
      if name = RAVCH then some 100 else if name = RRVCH then some 200 else none,
    bytesAt := fun a => if a = 100 then [0xE9, 1, 0, 0, 0] else [0xE9, 2, 0, 0, 0],
    call := fun fn args => fn + args.length }

/-- Registry state before any call: empty cell, nothing logged. -/
def demoRegEmpty : RegState := { cell := none, initCount := 0, log := [] }

/-- Registry state after the first successful resolution against
`demoEnvOk`. -/
def demoRegReady : RegState :=
  { cell := some { add := 106, remove := 207 }, initCount := 1, log := [] }

/-!
## Scanner characterization lemmas
-/

theorem wideMatchAt_cons_succ (b : Nat) (tl : List Nat) (i : Nat) :
    wideMatchAt (b :: tl) (i + 1) ↔ wideMatchAt tl i := by
  unfold wideMatchAt
  simp only [List.length_cons, List.getD_cons_succ]
  constructor
  · rintro ⟨h1, h2⟩; exact ⟨by omega, h2⟩
  · rintro ⟨h1, h2⟩; exact ⟨by omega, h2⟩

theorem narrowMatchAt_cons_succ (b : Nat) (tl : List Nat) (i : Nat) :
    narrowMatchAt (b :: tl) (i + 1) ↔ narrowMatchAt tl i := by
  unfold narrowMatchAt
  have e5 : i + 1 + 5 = (i + 5) + 1 := by omega
  have e6 : i + 1 + 6 = (i + 6) + 1 := by omega
  have e8 : i + 1 + 8 = (i + 8) + 1 := by omega
  rw [e5, e6, e8]
  simp only [List.length_cons, List.getD_cons_succ]
  constructor
  · rintro ⟨h1, h2⟩; exact ⟨by omega, h2⟩
  · rintro ⟨h1, h2⟩; exact ⟨by omega, h2⟩

theorem scanWideAux_of_no_match (bs : List Nat) (idx : Nat)
    (h : ∀ i, i < bs.length → ¬ wideMatchAt bs i) :
    scanWideAux bs idx = none := by
  induction bs generalizing idx with
  | nil => rfl
  | cons b0 t ih =>
    rcases t with _ | ⟨b1, t⟩
    · rfl
    rcases t with _ | ⟨b2, t⟩
    · rfl
    rcases t with _ | ⟨b3, t⟩
    · rfl
    rcases t with _ | ⟨b4, t⟩
    · rfl
    rw [scanWideAux]
    have hb0 : ¬ b0 = 0xE9 := by
      intro hb
      exact h 0 (by simp) ⟨by simp, by simpa using hb⟩
    rw [if_neg hb0]
    exact ih (idx + 1) (fun i hi hm =>
      h (i + 1) (by simpa using Nat.succ_lt_succ hi)
        ((wideMatchAt_cons_succ b0 _ i).mpr hm))

theorem scanWideAux_of_first_match (bs : List Nat) (idx i : Nat)
    (h1 : wideMatchAt bs i) (h2 : ∀ j, j < i → ¬ wideMatchAt bs j) :
    scanWideAux bs idx =
      some (relTarget (bs.getD (i + 1) 0) (bs.getD (i + 2) 0) (bs.getD (i + 3) 0)
        (bs.getD (i + 4) 0) (idx + i)) := by
  induction bs generalizing idx i with
  | nil => exact absurd h1.1 (by simp)
  | cons b0 t ih =>
    rcases t with _ | ⟨b1, t⟩
    · exact absurd h1.1 (by simp)
    rcases t with _ | ⟨b2, t⟩
    · exact absurd h1.1 (by simp)
    rcases t with _ | ⟨b3, t⟩
    · exact absurd h1.1 (by simp)
    rcases t with _ | ⟨b4, t⟩
    · exact absurd h1.1 (by simp)
    rw [scanWideAux]
    cases i with
    | zero =>
      have hb0 : b0 = 0xE9 := by simpa using h1.2
      rw [if_pos hb0]
      simp
    | succ i' =>
      have hb0 : ¬ b0 = 0xE9 := by
        intro hb
        exact h2 0 (Nat.succ_pos _) ⟨by simp, by simpa using hb⟩
      rw [if_neg hb0]
      have ht := ih (idx + 1) i' ((wideMatchAt_cons_succ b0 _ i').mp h1)
        (fun j hj hm => h2 (j + 1) (Nat.succ_lt_succ hj)
          ((wideMatchAt_cons_succ b0 _ j).mpr hm))
      have harith : idx + 1 + i' = idx + (i' + 1) := by omega
      rw [harith] at ht
      simpa using ht

theorem scanNarrowAux_of_no_match (bs : List Nat) (idx : Nat)
    (h : ∀ i, i < bs.length → ¬ narrowMatchAt bs i) :
    scanNarrowAux bs idx = none := by
  induction bs generalizing idx with
  | nil => rfl
  | cons b0 t ih =>
    rcases t with _ | ⟨b1, t⟩
    · rfl
    rcases t with _ | ⟨b2, t⟩
    · rfl
    rcases t with _ | ⟨b3, t⟩
    · rfl
    rcases t with _ | ⟨b4, t⟩
    · rfl
    rcases t with _ | ⟨b5, t⟩
    · rfl
    rcases t with _ | ⟨b6, t⟩
    · rfl
    rcases t with _ | ⟨b7, t⟩
    · rfl
    rcases t with _ | ⟨b8, t⟩
    · rfl
    rw [scanNarrowAux]
    have hb0 : ¬ (b0 = 0xE8 ∧ b5 = 0x5D ∧ b6 = 0xC2 ∧ b8 = 0x00) := by
      rintro ⟨hA, hB, hC, hD⟩
      refine h 0 (by simp) ⟨by simp, by simpa using hA, ?_, ?_, ?_⟩
      · simpa using hB
      · simpa using hC
      · simpa using hD
    rw [if_neg hb0]
    exact ih (idx + 1) (fun i hi hm =>
      h (i + 1) (by simpa using Nat.succ_lt_succ hi)
        ((narrowMatchAt_cons_succ b0 _ i).mpr hm))

theorem scanNarrowAux_of_first_match (bs : List Nat) (idx i : Nat)
    (h1 : narrowMatchAt bs i) (h2 : ∀ j, j < i → ¬ narrowMatchAt bs j) :
    scanNarrowAux bs idx =
      some (relTarget (bs.getD (i + 1) 0) (bs.getD (i + 2) 0) (bs.getD (i + 3) 0)
        (bs.getD (i + 4) 0) (idx + i)) := by
  induction bs generalizing idx i with
  | nil => exact absurd h1.1 (by simp)
  | cons b0 t ih =>
    rcases t with _ | ⟨b1, t⟩
    · exact absurd h1.1 (by simp)
    rcases t with _ | ⟨b2, t⟩
    · exact absurd h1.1 (by simp)
    rcases t with _ | ⟨b3, t⟩
    · exact absurd h1.1 (by simp)
    rcases t with _ | ⟨b4, t⟩
    · exact absurd h1.1 (by simp)
    rcases t with _ | ⟨b5, t⟩
    · exact absurd h1.1 (by simp)
    rcases t with _ | ⟨b6, t⟩
    · exact absurd h1.1 (by simp)
    rcases t with _ | ⟨b7, t⟩
    · exact absurd h1.1 (by simp)
    rcases t with _ | ⟨b8, t⟩
    · exact absurd h1.1 (by simp)
    rw [scanNarrowAux]
    cases i with
    | zero =>
      have hcond : b0 = 0xE8 ∧ b5 = 0x5D ∧ b6 = 0xC2 ∧ b8 = 0x00 := by
        obtain ⟨-, hA, hB, hC, hD⟩ := h1
        exact ⟨by simpa using hA, by simpa using hB, by simpa using hC, by simpa using hD⟩
      rw [if_pos hcond]
      simp
    | succ i' =>
      have hcond : ¬ (b0 = 0xE8 ∧ b5 = 0x5D ∧ b6 = 0xC2 ∧ b8 = 0x00) := by
        rintro ⟨hA, hB, hC, hD⟩
        refine h2 0 (Nat.succ_pos _) ⟨by simp, by simpa using hA, ?_, ?_, ?_⟩
        · simpa using hB
        · simpa using hC
        · simpa using hD
      rw [if_neg hcond]
      have ht := ih (idx + 1) i' ((narrowMatchAt_cons_succ b0 _ i').mp h1)
        (fun j hj hm => h2 (j + 1) (Nat.succ_lt_succ hj)
          ((narrowMatchAt_cons_succ b0 _ j).mpr hm))
      have harith : idx + 1 + i' = idx + (i' + 1) := by omega
      rw [harith] at ht
      simpa using ht

/-!
## Fixed-width arithmetic lemmas
-/

theorem wrap32_eq_self (x : Int) (h1 : -(2 ^ 31) ≤ x) (h2 : x < 2 ^ 31) : wrap32 x = x := by
  unfold wrap32; omega

theorem i32_ofLeBytes_lower (b1 b2 b3 b4 : Nat) : -(2 ^ 31) ≤ i32_ofLeBytes b1 b2 b3 b4 := by
  unfold i32_ofLeBytes
  dsimp only
  split <;> omega

theorem relTarget_collapse (b1 b2 b3 b4 : Nat) (idx : Nat) :
    relTarget b1 b2 b3 b4 idx = wrap32 (i32_ofLeBytes b1 b2 b3 b4 + idx + 5) := by
  unfold relTarget i32_add usize_as_i32 wrap32
  omega

theorem ptr_sum_64 (stub : Nat) (e : Int) :
    (stub + 1 * (e % ((2 ^ 64 : Nat) : Int)).toNat) % 2 ^ 64 =
      (((stub : Int) + e) % ((2 ^ 64 : Nat) : Int)).toNat := by
  omega

theorem ptr_sum_32 (stub : Nat) (e : Int) :
    (stub + 1 * (wrap32 e % ((2 ^ 32 : Nat) : Int)).toNat) % 2 ^ 32 =
      (((stub : Int) + e) % ((2 ^ 32 : Nat) : Int)).toNat := by
  unfold wrap32; omega

/-!
## Claims C1, C4, C10: Trampoline Unwrapper and byte-exact offsets
-/

/-- C1 (amended). 64-bit Trampoline Unwrapper: scanning overlapping
5-byte windows in ascending order over a buffer within the scan bound,
if no window starts with opcode `0xE9` the result is `none`; if the
first such window is at offset `i` with little-endian signed
displacement `d`, and the 32-bit sum `d + i + 5` does not overflow
`i32`, the result is `stub_address + i + 5 + d` (modulo the 64-bit
address width).  (Without the no-overflow proviso the displacement sum
is wrapped to 32 bits and sign-extended, which differs from the claim's
formula: see the counterexample.) -/
theorem wide_unwrapper_correct (stub : Nat) (bs : List Nat)
    (hbytes : ∀ b ∈ bs, b < 256) (hlen : bs.length ≤ 0x50) :
    ((∀ i, i < bs.length → ¬ wideMatchAt bs i) → get_wrapped_function_wide stub bs = none) ∧
    (∀ i, wideMatchAt bs i → (∀ j, j < i → ¬ wideMatchAt bs j) →
      dispAt bs i + i + 5 < 2 ^ 31 →
      get_wrapped_function_wide stub bs =
        some ((((stub : Int) + i + 5 + dispAt bs i) % (U64 : Int)).toNat)) := by
  constructor
  · intro h
    unfold get_wrapped_function_wide
    rw [scanWideAux_of_no_match bs 0 h]
    rfl
  · intro i h1 h2 hnov
    have hscan := scanWideAux_of_first_match bs 0 i h1 h2
    have hd := i32_ofLeBytes_lower (bs.getD (i + 1) 0) (bs.getD (i + 2) 0)
      (bs.getD (i + 3) 0) (bs.getD (i + 4) 0)
    unfold get_wrapped_function_wide
    rw [hscan, relTarget_collapse]
    have hdisp : i32_ofLeBytes (bs.getD (i + 1) 0) (bs.getD (i + 2) 0)
        (bs.getD (i + 3) 0) (bs.getD (i + 4) 0) = dispAt bs i := rfl
    rw [hdisp] at hd ⊢
    rw [Nat.zero_add]
    rw [wrap32_eq_self (dispAt bs i + (i : Int) + 5) (by omega) (by omega)]
    simp only [Option.map_some']
    congr 1
    unfold RawOffset.raw_add u8_ptr_add i32_as_usize64 U64
    omega

/-- C1 counterexample: with the single wide-pattern window
`E9 FF FF FF 7F` at offset 0 and stub address 0, the displacement is
`0x7FFFFFFF` and the claim's formula gives `0x80000004`, but the code's
wrapping 32-bit sum overflows to a negative value and is sign-extended,
yielding `2^64 - 0x7FFFFFFC` instead. -/
theorem wide_unwrapper_claim_counterexample :
    wideMatchAt [0xE9, 0xFF, 0xFF, 0xFF, 0x7F] 0 ∧
    dispAt [0xE9, 0xFF, 0xFF, 0xFF, 0x7F] 0 = 2147483647 ∧
    get_wrapped_function_wide 0 [0xE9, 0xFF, 0xFF, 0xFF, 0x7F] =
      some 18446744071562067972 ∧
    ((((0 : Int) + 0 + 5 + 2147483647) % (U64 : Int)).toNat = 2147483652) ∧
    (18446744071562067972 : Nat) ≠ 2147483652 :=
  ⟨by decide, by decide, by decide, by decide, by decide⟩

/-- Witness for `wide_unwrapper_correct` at concrete inputs: a buffer
with one wide pattern at offset 0 and displacement 10 resolves to
`0 + 0 + 5 + 10 = 15`, and a buffer with no `0xE9` byte yields `none`. -/
theorem wide_unwrapper_correct_witness :
    get_wrapped_function_wide 0 [0xE9, 10, 0, 0, 0] =
      some ((((0 : Int) + 0 + 5 + dispAt [0xE9, 10, 0, 0, 0] 0) % (U64 : Int)).toNat) ∧
    get_wrapped_function_wide 0 [0, 1, 2, 3, 4, 5] = none := by
  constructor
  · exact (wide_unwrapper_correct 0 [0xE9, 10, 0, 0, 0] (by decide) (by decide)).2 0
      (by decide) (fun j hj => absurd hj (Nat.not_lt_zero j)) (by decide)
  · exact (wide_unwrapper_correct 0 [0, 1, 2, 3, 4, 5] (by decide) (by decide)).1 (by decide)

/-- C4. 32-bit Trampoline Unwrapper: scanning overlapping 9-byte windows
in ascending order, if no window matches
`E8 ?? ?? ?? ?? 5D C2 ?? 00` the result is `none`; if the first matching
window is at offset `i` with little-endian signed displacement `d`, the
result is `stub_address + i + 5 + d` (modulo the 32-bit address width;
here the wrapping 32-bit sum and the truncating casts are exact, because
every step is congruent modulo `2^32`). -/
theorem narrow_unwrapper_correct (stub : Nat) (bs : List Nat)
    (hbytes : ∀ b ∈ bs, b < 256) :
    ((∀ i, i < bs.length → ¬ narrowMatchAt bs i) → get_wrapped_function_narrow stub bs = none) ∧
    (∀ i, narrowMatchAt bs i → (∀ j, j < i → ¬ narrowMatchAt bs j) →
      get_wrapped_function_narrow stub bs =
        some ((((stub : Int) + i + 5 + dispAt bs i) % (U32 : Int)).toNat)) := by
  constructor
  · intro h
    unfold get_wrapped_function_narrow
    rw [scanNarrowAux_of_no_match bs 0 h]
    rfl
  · intro i h1 h2
    have hscan := scanNarrowAux_of_first_match bs 0 i h1 h2
    unfold get_wrapped_function_narrow
    rw [hscan, relTarget_collapse]
    have hdisp : i32_ofLeBytes (bs.getD (i + 1) 0) (bs.getD (i + 2) 0)
        (bs.getD (i + 3) 0) (bs.getD (i + 4) 0) = dispAt bs i := rfl
    rw [hdisp, Nat.zero_add]
    simp only [Option.map_some']
    congr 1
    unfold RawOffset.raw_add u8_ptr_add i32_as_usize32 U32 wrap32
    omega

/-- Witness for `narrow_unwrapper_correct`: a buffer with one narrow
pattern at offset 0 and displacement 7 resolves to `0 + 0 + 5 + 7`, and
a patternless buffer yields `none`. -/
theorem narrow_unwrapper_correct_witness :
    get_wrapped_function_narrow 0 [0xE8, 7, 0, 0, 0, 0x5D, 0xC2, 0, 0] =
      some ((((0 : Int) + 0 + 5 + dispAt [0xE8, 7, 0, 0, 0, 0x5D, 0xC2, 0, 0] 0) %
        (U32 : Int)).toNat) ∧
    get_wrapped_function_narrow 0 [1, 2, 3, 4, 5, 6, 7, 8, 9] = none := by
  constructor
  · exact (narrow_unwrapper_correct 0 _ (by decide)).2 0 (by decide)
      (fun j hj => absurd hj (Nat.not_lt_zero j))
  · exact (narrow_unwrapper_correct 0 _ (by decide)).1 (by decide)

/-- C10. `RawOffset::raw_add` advances a pointer by exactly `count`
bytes and `raw_offset` by exactly `count` signed bytes, for every
pointee size (the element size is never consulted); consequently the
trampoline target computed through `wrapper.raw_add` is byte-exact. -/
theorem raw_offset_byte_exact :
    (∀ bits sizeT p count, RawOffset.raw_add bits sizeT p count = (p + count) % 2 ^ bits) ∧
    (∀ bits sizeT p count, RawOffset.raw_offset bits sizeT p count =
      (((p : Int) + count) % ((2 ^ bits : Nat) : Int)).toNat) ∧
    (∀ bits s1 s2 p count, RawOffset.raw_add bits s1 p count = RawOffset.raw_add bits s2 p count) ∧
    (∀ wrapper bytes ravh, scanWideAux bytes 0 = some ravh →
      get_wrapped_function_wide wrapper bytes =
        some ((wrapper + i32_as_usize64 ravh) % U64)) := by
  refine ⟨?_, ?_, ?_, ?_⟩
  · intro bits sizeT p count
    unfold RawOffset.raw_add u8_ptr_add
    rw [Nat.one_mul]
  · intro bits sizeT p count
    unfold RawOffset.raw_offset u8_ptr_offset
    rw [Int.one_mul]
  · intro bits s1 s2 p count
    rfl
  · intro wrapper bytes ravh h
    unfold get_wrapped_function_wide
    rw [h]
    simp only [Option.map_some']
    unfold RawOffset.raw_add u8_ptr_add U64
    rw [Nat.one_mul]

/-- Witness for `raw_offset_byte_exact`: a 3-element `raw_add` on a
pointer to a 4-byte pointee moves 3 bytes, not 12, and the trampoline
target for a concrete scan is the byte-exact sum. -/
theorem raw_offset_byte_exact_witness :
    RawOffset.raw_add 64 4 100 3 = 103 ∧
    get_wrapped_function_wide 0 [0xE9, 1, 0, 0, 0] =
      some ((0 + i32_as_usize64 6) % U64) := by
  constructor
  · rw [raw_offset_byte_exact.1 64 4 100 3]; decide
  · exact raw_offset_byte_exact.2.2.2 0 [0xE9, 1, 0, 0, 0] 6 (by decide)

/-!
## Claim C3: Module Locator
-/

theorem gmhLoop_chain (mem : Nat → LdrNode) (list_base : Nat) (target_name : List Char)
    (ns : List Nat) (cur : Nat) (fuel : Nat)
    (hchain : isChain mem list_base cur ns) (hfuel : ns.length < fuel) :
    gmhLoop mem list_base target_name fuel cur =
      ((ns.map mem).find? (fun nd => decodedUpperName nd == target_name)).map LdrNode.base := by
  induction ns generalizing cur fuel with
  | nil =>
    obtain ⟨f, rfl⟩ : ∃ f, fuel = f + 1 := ⟨fuel - 1, by omega⟩
    unfold isChain at hchain
    simp [gmhLoop, hchain]
  | cons n rest ih =>
    obtain ⟨hflink, hne, hnn, hrest⟩ := hchain
    obtain ⟨f, rfl⟩ : ∃ f, fuel = f + 1 := ⟨fuel - 1, by omega⟩
    simp only [gmhLoop, hflink]
    rw [if_neg hne, if_neg hnn]
    by_cases hm : decodedUpperName (mem n) = target_name
    · rw [if_pos hm]
      rw [List.map_cons, List.find?_cons_of_pos _ (by simpa using hm)]
      rfl
    · rw [if_neg hm]
      rw [List.map_cons, List.find?_cons_of_neg _ (by simpa using hm)]
      exact ih n f hrest (by simpa using Nat.lt_of_succ_lt_succ hfuel)

/-- C3. The Module Locator walks the circular list from the head and
returns the base address of the first node whose decoded, uppercased
UTF-16 name equals the uppercased target (the semantics of
`List.find?`), and returns `none` exactly when the traversal comes back
to the list head with no node matching. -/
theorem module_locator_correct (mem : Nat → LdrNode) (list_base : Nat) (name : List Char)
    (ns : List Nat) (fuel : Nat)
    (hchain : isChain mem list_base list_base ns) (hfuel : ns.length < fuel) :
    get_module_handle mem list_base name fuel =
      ((ns.map mem).find?
        (fun nd => decodedUpperName nd == name.map Char.toUpper)).map LdrNode.base ∧
    (get_module_handle mem list_base name fuel = none ↔
      ∀ nd ∈ ns.map mem, decodedUpperName nd ≠ name.map Char.toUpper) := by
  have h := gmhLoop_chain mem list_base (name.map Char.toUpper) ns list_base fuel hchain hfuel
  refine ⟨h, ?_⟩
  rw [show get_module_handle mem list_base name fuel =
    gmhLoop mem list_base (name.map Char.toUpper) fuel list_base from rfl] at *
  rw [h, Option.map_eq_none', List.find?_eq_none]
  constructor
  · intro hall nd hnd heq
    exact absurd (by simpa using heq) (by simpa using hall nd hnd)
  · intro hall nd hnd
    simpa using hall nd hnd

/-- Witness for `module_locator_correct`: on the concrete circular list
`demoMem` the lowercase query finds the uppercase-normalized name of
node `30` and returns its base `222`; a query matching nothing returns
`none`. -/
theorem module_locator_correct_witness :
    get_module_handle demoMem 10 [Char.ofNat 110, Char.ofNat 116, Char.ofNat 100,
      Char.ofNat 108, Char.ofNat 108, Char.ofNat 46, Char.ofNat 100, Char.ofNat 108,
      Char.ofNat 108] 3 = some 222 ∧
    get_module_handle demoMem 10 [Char.ofNat 113] 3 = none := by
  constructor
  · rw [(module_locator_correct demoMem 10 _ [20, 30] 3 (by decide) (by decide)).1]
    decide
  · rw [(module_locator_correct demoMem 10 _ [20, 30] 3 (by decide) (by decide)).1]
    decide

/-!
## Claim C2: the initialization race
-/

theorem raceStep_cell_mono {s s' : RaceState} (h : RaceStep s s') :
    ∀ v, s.cell = some v → s'.cell = some v := by
  cases h with
  | read_some i v hti hc => intro w hw; exact hw
  | run_init i hti hc => intro w hw; rw [hc] at hw; cases hw
  | cas_win i b hti hc => intro w hw; rw [hc] at hw; cases hw
  | cas_lose i b v hti hc => intro w hw; exact hw

theorem raceStep_preserves_observation {s s' : RaceState} (h : RaceStep s s')
    (hobs : raceObservation s) : raceObservation s' := by
  cases h with
  | read_some i v hti hc =>
    intro j w hj
    rw [List.getElem?_set] at hj
    by_cases hij : i = j
    · rw [if_pos hij] at hj
      by_cases hlt : i < s.threads.length
      · rw [if_pos hlt] at hj
        cases hj
        exact hc
      · rw [if_neg hlt] at hj; cases hj
    · rw [if_neg hij] at hj
      exact hobs j w hj
  | run_init i hti hc =>
    intro j w hj
    rw [List.getElem?_set] at hj
    by_cases hij : i = j
    · rw [if_pos hij] at hj
      by_cases hlt : i < s.threads.length
      · rw [if_pos hlt] at hj; cases hj
      · rw [if_neg hlt] at hj; cases hj
    · rw [if_neg hij] at hj
      exact hobs j w hj
  | cas_win i b hti hc =>
    intro j w hj
    rw [List.getElem?_set] at hj
    by_cases hij : i = j
    · rw [if_pos hij] at hj
      by_cases hlt : i < s.threads.length
      · rw [if_pos hlt] at hj; cases hj; rfl
      · rw [if_neg hlt] at hj; cases hj
    · rw [if_neg hij] at hj
      rw [hobs j w hj] at hc; cases hc
  | cas_lose i b v hti hc =>
    intro j w hj
    rw [List.getElem?_set] at hj
    by_cases hij : i = j
    · rw [if_pos hij] at hj
      by_cases hlt : i < s.threads.length
      · rw [if_pos hlt] at hj; cases hj; exact hc
      · rw [if_neg hlt] at hj; cases hj
    · rw [if_neg hij] at hj
      exact hobs j w hj

theorem raceInit_observation (n : Nat) : raceObservation (raceInit n) := by
  intro i v h
  rw [show (raceInit n).threads = List.replicate n TPC.start from rfl,
    List.getElem?_replicate] at h
  split at h
  · cases h
  · cases h

/-- C2 counterexample: with two threads racing `get_or_init` on the
`once_cell::race::OnceBox`, both can read the empty cell and both run
the initializer (`find_handlers` executes twice, `initCount = 2`) before
the compare-and-swap decides a winner; the loser discards its own box.
This refutes "the underlying work executes at most once" and "losing
threads block until the winner completes". -/
theorem once_init_claim_counterexample :
    RaceReachable (raceInit 2)
      { cell := some 0, threads := [TPC.ready 0, TPC.ready 0], nextBox := 2, initCount := 2 } ∧
    ({ cell := some 0, threads := [TPC.ready 0, TPC.ready 0], nextBox := 2,
        initCount := 2 } : RaceState).initCount = 2 := by
  constructor
  · exact Relation.ReflTransGen.head (RaceStep.run_init _ 0 rfl rfl)
      (Relation.ReflTransGen.head (RaceStep.run_init _ 1 rfl rfl)
        (Relation.ReflTransGen.head (RaceStep.cas_win _ 0 0 rfl rfl)
          (Relation.ReflTransGen.head (RaceStep.cas_lose _ 1 1 0 rfl rfl)
            Relation.ReflTransGen.refl)))
  · rfl

/-- C2 (amended). Under the lock-free `once_cell::race::OnceBox`
semantics the initializer may execute more than once under contention,
but at most one result is ever stored: in every reachable state each
thread that has completed `get_or_init` observed exactly the stored
cell value, any two completed threads observed the same value, and a
stored cell value is never replaced. -/
theorem once_box_same_value_observed (n : Nat) (s : RaceState)
    (hreach : RaceReachable (raceInit n) s) :
    raceObservation s ∧
    (∀ (i j : Nat) (v w : Nat), s.threads[i]? = some (TPC.ready v) →
      s.threads[j]? = some (TPC.ready w) → v = w) ∧
    (∀ s' v, RaceStep s s' → s.cell = some v → s'.cell = some v) := by
  have hobs : raceObservation s := by
    unfold RaceReachable at hreach
    induction hreach with
    | refl => exact raceInit_observation n
    | tail hab hbc ih => exact raceStep_preserves_observation hbc ih
  refine ⟨hobs, ?_, ?_⟩
  · intro i j v w hi hj
    have h1 := hobs i v hi
    have h2 := hobs j w hj
    rw [h1] at h2
    cases h2
    rfl
  · intro s' v hstep hv
    exact raceStep_cell_mono hstep v hv

/-- Witness for `once_box_same_value_observed`: after a concrete
two-step run (thread 0 initializes and wins the CAS), the completed
thread's observation is exactly the stored cell value. -/
theorem once_box_same_value_observed_witness :
    ({ cell := some 0, threads := [TPC.ready 0, TPC.start], nextBox := 1,
        initCount := 1 } : RaceState).cell = some 0 :=
  (once_box_same_value_observed 2 _
    (Relation.ReflTransGen.head (RaceStep.run_init _ 0 rfl rfl)
      (Relation.ReflTransGen.head (RaceStep.cas_win _ 0 0 rfl rfl)
        Relation.ReflTransGen.refl))).1 0 0 rfl

/-!
## Claims C5, C7, C8: resolution failure, forwarding, caching
-/

/-- C5. During first population of the cache, each lookup miss (module
not found, either export not found, either trampoline pattern not found
within the `0x50` bound) makes `find_handlers` panic (`none`) with no
pair produced; on success the returned pair holds exactly the two
unwrapped targets together.  A panicking resolution aborts the public
operations with nothing cached for future calls to observe. -/
theorem resolution_failure_fatal (env : ResolveEnv) :
    (env.moduleBase = none → find_handlers env = none) ∧
    (∀ base, env.moduleBase = some base →
      (env.procAddr base RAVCH = none → find_handlers env = none) ∧
      (env.procAddr base RRVCH = none → find_handlers env = none) ∧
      (∀ ra rr, env.procAddr base RAVCH = some ra → env.procAddr base RRVCH = some rr →
        ((get_wrapped_function_wide ra ((env.bytesAt ra).take 0x50) = none ∨
          get_wrapped_function_wide rr ((env.bytesAt rr).take 0x50) = none) →
            find_handlers env = none) ∧
        (∀ a r, get_wrapped_function_wide ra ((env.bytesAt ra).take 0x50) = some a →
          get_wrapped_function_wide rr ((env.bytesAt rr).take 0x50) = some r →
          find_handlers env = some { add := a, remove := r }))) ∧
    (∀ s : RegState, s.cell = none → find_handlers env = none →
      (∀ first hd, add_vectored_exception_handler env s first hd = none) ∧
      (∀ tok, remove_vectored_exception_handler env s tok = none)) := by
  refine ⟨?_, ?_, ?_⟩
  · intro h
    unfold find_handlers
    rw [h]
  · intro base hb
    refine ⟨?_, ?_, ?_⟩
    · intro hra
      unfold find_handlers
      rw [hb]
      dsimp only
      rw [hra]
    · intro hrr
      unfold find_handlers
      rw [hb]
      dsimp only
      cases hra : env.procAddr base RAVCH with
      | none => rfl
      | some ra =>
        dsimp only
        rw [hrr]
    · intro ra rr hra hrr
      constructor
      · intro hor
        unfold find_handlers
        rw [hb]
        dsimp only
        rw [hra]
        dsimp only
        rw [hrr]
        dsimp only
        rcases hor with h1 | h1
        · rw [h1]
        · rw [h1]
          cases get_wrapped_function_wide ra ((env.bytesAt ra).take 0x50) <;> rfl
      · intro a r ha hr
        unfold find_handlers
        rw [hb]
        dsimp only
        rw [hra]
        dsimp only
        rw [hrr]
        dsimp only
        rw [ha, hr]
  · intro s hs hf
    constructor
    · intro first hd
      unfold add_vectored_exception_handler get_or_init
      rw [hs, hf]
      rfl
    · intro tok
      unfold remove_vectored_exception_handler get_or_init
      rw [hs, hf]
      rfl

/-- Witness for `resolution_failure_fatal`: the failing environment
panics and caches nothing, the successful environment produces both
targets together. -/
theorem resolution_failure_fatal_witness :
    find_handlers demoEnvFail = none ∧
    find_handlers demoEnvOk = some { add := 106, remove := 207 } ∧
    add_vectored_exception_handler demoEnvFail demoRegEmpty true 5 = none := by
  refine ⟨(resolution_failure_fatal demoEnvFail).1 rfl, ?_, ?_⟩
  · exact (((resolution_failure_fatal demoEnvOk).2.1 0 rfl).2.2 100 200 (by decide)
      (by decide)).2 106 207 (by decide) (by decide)
  · exact (((resolution_failure_fatal demoEnvFail).2.2 demoRegEmpty rfl
      ((resolution_failure_fatal demoEnvFail).1 rfl)).1 true 5)

/-- C8. The first call to either public operation, from an empty cell,
runs the full resolution (`initCount` increases, and the successful
pair is stored); every later call finds the populated cell and is
served from it with no further resolution work (`cell` and `initCount`
unchanged, the call forwarded through the cached pair). -/
theorem registry_lazy_init_and_cache (env : ResolveEnv) (s : RegState) (h : VectoredHandlers) :
    (s.cell = none → find_handlers env = some h →
      (∀ first hd, (add_vectored_exception_handler env s first hd).map
          (fun rs => (rs.2.cell, rs.2.initCount)) = some (some h, s.initCount + 1)) ∧
      (∀ tok, (remove_vectored_exception_handler env s tok).map
          (fun rs => (rs.2.cell, rs.2.initCount)) = some (some h, s.initCount + 1))) ∧
    (s.cell = some h →
      (∀ first hd, add_vectored_exception_handler env s first hd =
          some (invoke env s h.add [if first then 1 else 0, hd, 0])) ∧
      (∀ tok, remove_vectored_exception_handler env s tok =
          some (invoke env s h.remove [tok, 0])) ∧
      (∀ first hd rs, add_vectored_exception_handler env s first hd = some rs →
        rs.2.cell = some h ∧ rs.2.initCount = s.initCount) ∧
      (∀ tok rs, remove_vectored_exception_handler env s tok = some rs →
        rs.2.cell = some h ∧ rs.2.initCount = s.initCount)) := by
  constructor
  · intro hs hf
    constructor
    · intro first hd
      unfold add_vectored_exception_handler get_or_init
      rw [hs, hf]
      rfl
    · intro tok
      unfold remove_vectored_exception_handler get_or_init
      rw [hs, hf]
      rfl
  · intro hs
    have hadd : ∀ first hd, add_vectored_exception_handler env s first hd =
        some (invoke env s h.add [if first then 1 else 0, hd, 0]) := by
      intro first hd
      unfold add_vectored_exception_handler get_or_init
      rw [hs]
      rfl
    have hrem : ∀ tok, remove_vectored_exception_handler env s tok =
        some (invoke env s h.remove [tok, 0]) := by
      intro tok
      unfold remove_vectored_exception_handler get_or_init
      rw [hs]
      rfl
    refine ⟨hadd, hrem, ?_, ?_⟩
    · intro first hd rs hrs
      rw [hadd first hd] at hrs
      cases hrs
      exact ⟨hs, rfl⟩
    · intro tok rs hrs
      rw [hrem tok] at hrs
      cases hrs
      exact ⟨hs, rfl⟩

/-- Witness for `registry_lazy_init_and_cache`: against `demoEnvOk` the
first call populates the cell with the resolved pair and counts one
resolution; a call in the ready state leaves the count at one. -/
theorem registry_lazy_init_and_cache_witness :
    (add_vectored_exception_handler demoEnvOk demoRegEmpty true 5).map
      (fun rs => (rs.2.cell, rs.2.initCount)) =
        some (some { add := 106, remove := 207 }, 1) ∧
    add_vectored_exception_handler demoEnvOk demoRegReady true 5 =
      some (invoke demoEnvOk demoRegReady 106 [1, 5, 0]) := by
  constructor
  · exact ((registry_lazy_init_and_cache demoEnvOk demoRegEmpty
      { add := 106, remove := 207 }).1 rfl (by decide)).1 true 5
  · exact ((registry_lazy_init_and_cache demoEnvOk demoRegReady
      { add := 106, remove := 207 }).2 rfl).1 true 5

/-- C7. In the ready state both operations are thin forwarding calls
into the cached pair: `Order::First` registers with front-of-chain
selector `1`, `Order::Last` with `0`, and both the registration and the
unregistration call pass the fixed continue-handler type tag `0` as
their last argument. -/
theorem ready_forwarding_thin (env : ResolveEnv) (s : RegState) (h : VectoredHandlers)
    (hs : s.cell = some h) :
    (∀ hd, raw_add env s Order.First hd = some (invoke env s h.add [1, hd, 0])) ∧
    (∀ hd, raw_add env s Order.Last hd = some (invoke env s h.add [0, hd, 0])) ∧
    (∀ tok, remove_vectored_exception_handler env s tok =
      some (invoke env s h.remove [tok, 0])) := by
  refine ⟨?_, ?_, ?_⟩
  · intro hd
    unfold raw_add add_vectored_exception_handler get_or_init
    rw [hs]
    rfl
  · intro hd
    unfold raw_add add_vectored_exception_handler get_or_init
    rw [hs]
    rfl
  · intro tok
    unfold remove_vectored_exception_handler get_or_init
    rw [hs]
    rfl

/-- Witness for `ready_forwarding_thin`: concrete forwarded calls with
the position selector and the zero type tag visible in the logged
argument lists. -/
theorem ready_forwarding_thin_witness :
    raw_add demoEnvOk demoRegReady Order.First 42 =
      some (109,
        { cell := some { add := 106, remove := 207 }, initCount := 1,
          log := [{ fn := 106, args := [1, 42, 0], ret := 109 }] }) ∧
    raw_add demoEnvOk demoRegReady Order.Last 42 =
      some (109,
        { cell := some { add := 106, remove := 207 }, initCount := 1,
          log := [{ fn := 106, args := [0, 42, 0], ret := 109 }] }) ∧
    remove_vectored_exception_handler demoEnvOk demoRegReady 77 =
      some (209,
        { cell := some { add := 106, remove := 207 }, initCount := 1,
          log := [{ fn := 207, args := [77, 0], ret := 209 }] }) := by
  refine ⟨?_, ?_, ?_⟩
  · rw [(ready_forwarding_thin demoEnvOk demoRegReady { add := 106, remove := 207 } rfl).1 42]
    rfl
  · rw [(ready_forwarding_thin demoEnvOk demoRegReady { add := 106, remove := 207 } rfl).2.1 42]
    rfl
  · rw [(ready_forwarding_thin demoEnvOk demoRegReady
      { add := 106, remove := 207 } rfl).2.2 77]
    rfl

/-!
## Claims C6, C9: the scoped handle
-/

/-- C6. Constructing a `Veh` invokes the cached registration function
exactly once — the call log grows by exactly that one invocation — and
stores the returned opaque token unchanged in the handle; dropping the
constructed handle invokes the cached unregistration function exactly
once, passing exactly the stored token.  (Exclusive ownership — no
copy, no share — is Rust's type discipline: the model expresses its
consequence, one release per acquire, by `Veh.drop` consuming the
handle produced by `Veh.add_raw`.) -/
theorem veh_acquire_release_paired (env : ResolveEnv) (s : RegState) (h : VectoredHandlers)
    (hs : s.cell = some h) (order : Order) (hd : Nat) :
    Veh.add_raw env s order hd =
      some (⟨env.call h.add [if order = Order.First then 1 else 0, hd, 0]⟩,
        { s with log := s.log ++
          [{ fn := h.add, args := [if order = Order.First then 1 else 0, hd, 0],
             ret := env.call h.add [if order = Order.First then 1 else 0, hd, 0] }] }) ∧
    (∀ (v : Veh) (s1 : RegState), Veh.add_raw env s order hd = some (v, s1) →
      Veh.drop env s1 v =
        some { s1 with log := s1.log ++
          [{ fn := h.remove, args := [v.handle, 0],
             ret := env.call h.remove [v.handle, 0] }] }) := by
  obtain ⟨sc, ic, lg⟩ := s
  have hsc : sc = some h := hs
  subst hsc
  have hadd : Veh.add_raw env ⟨some h, ic, lg⟩ order hd =
      some (⟨env.call h.add [if order = Order.First then 1 else 0, hd, 0]⟩,
        { cell := some h, initCount := ic, log := lg ++
          [{ fn := h.add, args := [if order = Order.First then 1 else 0, hd, 0],
             ret := env.call h.add [if order = Order.First then 1 else 0, hd, 0] }] }) := by
    cases order with
    | First => rfl
    | Last => rfl
  refine ⟨hadd, ?_⟩
  intro v s1 hv
  rw [hadd] at hv
  cases hv
  rfl

/-- Witness for `veh_acquire_release_paired`: a concrete construction
logs one registration call returning token 109, and dropping the handle
logs one unregistration call carrying exactly token 109. -/
theorem veh_acquire_release_paired_witness :
    Veh.add_raw demoEnvOk demoRegReady Order.First 5 =
      some (⟨109⟩,
        { cell := some { add := 106, remove := 207 }, initCount := 1,
          log := [{ fn := 106, args := [1, 5, 0], ret := 109 }] }) ∧
    Veh.drop demoEnvOk
      { cell := some { add := 106, remove := 207 }, initCount := 1,
        log := [{ fn := 106, args := [1, 5, 0], ret := 109 }] } ⟨109⟩ =
      some
        { cell := some { add := 106, remove := 207 }, initCount := 1,
          log := [{ fn := 106, args := [1, 5, 0], ret := 109 },
                  { fn := 207, args := [109, 0], ret := 209 }] } := by
  have hthm := veh_acquire_release_paired demoEnvOk demoRegReady
    { add := 106, remove := 207 } rfl Order.First 5
  constructor
  · rw [hthm.1]
    rfl
  · have := hthm.2 ⟨109⟩
      { cell := some { add := 106, remove := 207 }, initCount := 1,
        log := [{ fn := 106, args := [1, 5, 0], ret := 109 }] } (by rw [hthm.1]; rfl)
    rw [this]
    rfl

/-- C9. Once the cache is ready the public interface has no error path:
`Veh::add_raw` always returns a handle, storing whatever pointer the
registration call returned with no validity check — a null (0) return
still yields a `Veh` holding 0, whose drop passes 0 on to the
unregistration call — and `Drop` discards the unregistration call's
return value (only the state survives), so failure of either underlying
primitive is unobservable to the caller. -/
theorem veh_no_error_path (env : ResolveEnv) (s : RegState) (h : VectoredHandlers)
    (hs : s.cell = some h) :
    (∀ order hd, (Veh.add_raw env s order hd).isSome = true) ∧
    (∀ order hd v s1, Veh.add_raw env s order hd = some (v, s1) →
      v.handle = env.call h.add [if order = Order.First then 1 else 0, hd, 0]) ∧
    (∀ hd v s1, env.call h.add [1, hd, 0] = 0 →
      Veh.add_raw env s Order.First hd = some (v, s1) → v.handle = 0) ∧
    (∀ v : Veh, Veh.drop env s v =
      some { s with log := s.log ++
        [{ fn := h.remove, args := [v.handle, 0],
           ret := env.call h.remove [v.handle, 0] }] }) := by
  obtain ⟨sc, ic, lg⟩ := s
  have hsc : sc = some h := hs
  subst hsc
  have hadd : ∀ order hd, Veh.add_raw env ⟨some h, ic, lg⟩ order hd =
      some (⟨env.call h.add [if order = Order.First then 1 else 0, hd, 0]⟩,
        { cell := some h, initCount := ic, log := lg ++
          [{ fn := h.add, args := [if order = Order.First then 1 else 0, hd, 0],
             ret := env.call h.add [if order = Order.First then 1 else 0, hd, 0] }] }) := by
    intro order hd
    cases order with
    | First => rfl
    | Last => rfl
  refine ⟨?_, ?_, ?_, ?_⟩
  · intro order hd
    rw [hadd order hd]
    rfl
  · intro order hd v s1 hv
    rw [hadd order hd] at hv
    cases hv
    rfl
  · intro hd v s1 hnull hv
    rw [hadd Order.First hd] at hv
    cases hv
    simpa using hnull
  · intro v
    rfl

/-- Witness for `veh_no_error_path`: against an environment whose calls
all return the null pointer, construction still succeeds, the stored
token is 0, and the drop passes 0 to the unregistration call while its
(null) return value is discarded. -/
theorem veh_no_error_path_witness :
    (Veh.add_raw demoEnvFail demoRegReady Order.First 5).isSome = true ∧
    (∀ v s1, Veh.add_raw demoEnvFail demoRegReady Order.First 5 = some (v, s1) →
      v.handle = 0) ∧
    Veh.drop demoEnvFail demoRegReady ⟨0⟩ =
      some
        { cell := some { add := 106, remove := 207 }, initCount := 1,
          log := [{ fn := 207, args := [0, 0], ret := 0 }] } := by
  have hthm := veh_no_error_path demoEnvFail demoRegReady { add := 106, remove := 207 } rfl
  refine ⟨hthm.1 Order.First 5, ?_, ?_⟩
  · intro v s1 hv
    exact hthm.2.2.1 5 v s1 rfl hv
  · rw [hthm.2.2.2 ⟨0⟩]
    rfl
